import Mathlib

/-!
Shallow embedding of the d4csv ticket-sale reverse-pricing core:
the batch catalog, the pricing-candidate enumerator, and the
ambiguity-resolution passes.  Machine integers (usize) are modelled as Nat;
the one place the source casts usize to isize is modelled with an explicit
wrap at 2^64; the one fallible spot (usize division by zero, a Rust panic)
is modelled by returning none.  HashSet values are modelled as lists:
collecting an iterator into a HashSet is list deduplication, and set
predicates are membership based.
-/

namespace D4

/-- Batch numbering, from ticket/batchnum.rs: the promo batch or a numbered
batch (numbered batches start at 1). -/
inductive BatchNum where
  | Promo : BatchNum
  | Numbered : Nat → BatchNum
deriving DecidableEq

/-- Implicit batch number; promo is zero (ticket/batchnum.rs, inum). -/
def BatchNum.inum : BatchNum → Nat
  | .Promo => 0
  | .Numbered n => n

/-- The Ord impl for BatchNum from ticket/batchnum.rs: Promo below every
Numbered, Numbered compared by their number. -/
def BatchNum.cmp : BatchNum → BatchNum → Ordering
  | .Promo, .Promo => .eq
  | .Promo, .Numbered _ => .lt
  | .Numbered _, .Promo => .gt
  | .Numbered a, .Numbered b => compare a b

/-- Less-or-equal in the BatchNum total order. -/
def BatchNum.le (a b : BatchNum) : Prop := BatchNum.cmp a b ≠ Ordering.gt

/-- From usize for BatchNum (ticket/batchnum.rs): 0 is Promo, n is
Numbered n. -/
def BatchNum.ofNat : Nat → BatchNum
  | 0 => .Promo
  | n + 1 => .Numbered (n + 1)

/-- A single ticket batch (ticket/batch.rs): number and price in cents. -/
structure Batch where
  num : BatchNum
  price : Nat
deriving DecidableEq

/-- BatchPrices (ticket/batch.rs) is a HashMap from BatchNum to price;
modelled as an association list (keys unique by construction). -/
abbrev BatchPrices := List (BatchNum × Nat)

/-- iter2bp from ticket/batch.rs: index 0 becomes Promo, later indices the
numbered batches, each mapped to its price. -/
def iter2bp (l : List Nat) : BatchPrices :=
  l.enum.map (fun p => (BatchNum.ofNat p.1, p.2))

/-- Modelled from the spec: bp2iter is imported from ticket/batch.rs by
price_deriving.rs and context.rs but its body is not under src/.  The spec
describes the catalog as a read-only mapping BatchNum to price, so bp2iter
yields each entry of the mapping as a Batch value. -/
def bp2iter (bp : BatchPrices) : List Batch :=
  bp.map (fun p => ⟨p.1, p.2⟩)

/-- The sales context (context.rs): online fee fraction, batch prices and
the optional per-person promo limit. -/
structure SalesContext where
  online_fee : Nat × Nat
  batches : BatchPrices
  promo_limit : Option Nat
deriving DecidableEq

/-- BatchAmount (price_deriving.rs): a batch and a quantity. -/
structure BatchAmount where
  batch : Batch
  amount : Nat
deriving DecidableEq

/-- Total price of a BatchAmount (price_deriving.rs, ba_price). -/
def ba_price (ba : BatchAmount) : Nat := ba.batch.price * ba.amount

/-- BatchAmount iterator over a half-open Rust range (price_deriving.rs,
ba_iter): quantities start, start+1, ..., stop-1. -/
def ba_iter (batch : Batch) (start stop : Nat) : List BatchAmount :=
  (List.range' start (stop - start)).map (fun n => ⟨batch, n⟩)

/-- A match for a price (price_deriving.rs, PricingMatch). -/
inductive PricingMatch where
  | Multiple : BatchAmount → PricingMatch
  | PromoCombo : BatchAmount → BatchAmount → PricingMatch
  | TurnOfBatch : BatchAmount → BatchAmount → PricingMatch
deriving DecidableEq

/-- Sum price of a match (price_deriving.rs, PricingMatch::price). -/
def PricingMatch.price : PricingMatch → Nat
  | .Multiple ba => ba_price ba
  | .PromoCombo pba ba => ba_price pba + ba_price ba
  | .TurnOfBatch ba1 ba2 => ba_price ba1 + ba_price ba2

/-- Number of tickets in a match (price_deriving.rs,
PricingMatch::tickets). -/
def PricingMatch.tickets : PricingMatch → Nat
  | .Multiple ba => ba.amount
  | .PromoCombo pba ba => pba.amount + ba.amount
  | .TurnOfBatch ba1 ba2 => ba1.amount + ba2.amount

/-- The Rust usize-to-isize cast, wrapping at 2^64. -/
def usizeToIsize (n : Nat) : Int :=
  (((n + 2 ^ 63) % 2 ^ 64 : Nat) : Int) - 2 ^ 63

/-- Stage 1 of PricingMatch::all_priced (price_deriving.rs): all Multiple
matches among the quantity-bounded batch amounts whose price is exact. -/
def all_multiples (price : Nat) (allba : List BatchAmount) : List PricingMatch :=
  allba.filterMap (fun ba =>
    if ba_price ba = price then some (PricingMatch.Multiple ba) else none)

/-- Stage 2 of PricingMatch::all_priced (price_deriving.rs): all PromoCombo
matches, pairing promo amounts (quantity in the half-open range given by the
promo limit) with non-promo amounts on the first numbered batch only, kept
when the summed price is exact. -/
def all_promocombos (price : Nat) (opt_promo : Option Batch) (prEnd : Nat)
    (bi : List BatchAmount) : List PricingMatch :=
  match opt_promo with
  | none => []
  | some promo =>
    ((ba_iter promo 1 prEnd).flatMap
        (fun pba => bi.map (fun ba => (pba, ba)))).filterMap
      (fun q =>
        if q.2.batch.num.inum ≠ 1 then none
        else if (PricingMatch.PromoCombo q.1 q.2).price = price then
          some (PricingMatch.PromoCombo q.1 q.2)
        else none)

/-- Stage 3 of PricingMatch::all_priced (price_deriving.rs): all TurnOfBatch
matches over ordered batch pairs whose implicit numbers differ by exactly one
(isize subtraction in the source), quantities in the worst-case range, kept
when the summed price is exact. -/
def all_tobs (price : Nat) (bs : List Batch) (w : Nat) : List PricingMatch :=
  (((bs.flatMap (fun b1 => bs.map (fun b2 => (b1, b2)))).filterMap
      (fun q =>
        if usizeToIsize q.2.num.inum - usizeToIsize q.1.num.inum = 1 then
          some ((ba_iter q.1 1 w).flatMap
            (fun ba1 => (ba_iter q.2 1 w).map (fun ba2 => (ba1, ba2))))
        else none)).flatten).filterMap
    (fun q =>
      if (PricingMatch.TurnOfBatch q.1 q.2).price = price then
        some (PricingMatch.TurnOfBatch q.1 q.2)
      else none)

/-- PricingMatch::all_priced (price_deriving.rs).  An empty catalog yields no
matches.  Otherwise the source computes w = price / mp + 1 where mp is the
minimum batch price: when mp = 0 that usize division by zero panics, which is
modelled by returning none.  The result concatenates the three stages. -/
def all_priced (price : Nat) (ctx : SalesContext) : Option (List PricingMatch) :=
  match (ctx.batches.map Prod.snd).min? with
  | none => some []
  | some mp =>
    if mp = 0 then none
    else
      let w := price / mp + 1
      let allba := (bp2iter ctx.batches).flatMap (fun b => ba_iter b 1 w)
      let opt_promo :=
        ((bp2iter ctx.batches).filter (fun b => b.num == BatchNum.Promo)).head?
      let bi := allba.filter
        (fun ba => BatchNum.cmp ba.batch.num BatchNum.Promo == Ordering.gt)
      some (all_multiples price allba
        ++ all_promocombos price opt_promo (ctx.promo_limit.getD w) bi
        ++ all_tobs price (bp2iter ctx.batches) w)

/-- Outcome of enumeration for one amount (price_deriving.rs,
PricingCandidate).  The Ambiguous payload is a HashSet in the source,
modelled as a duplicate-free list. -/
inductive PricingCandidate where
  | Precise : PricingMatch → PricingCandidate
  | Ambiguous : List PricingMatch → PricingCandidate
  | NoMatch : PricingCandidate
deriving DecidableEq

/-- FromIterator for PricingCandidate (price_deriving.rs): collect into a
HashSet (deduplicate) and collapse by size. -/
def PricingCandidate.from_iter (l : List PricingMatch) : PricingCandidate :=
  match l.dedup with
  | [] => .NoMatch
  | [m] => .Precise m
  | m1 :: m2 :: ms => .Ambiguous (m1 :: m2 :: ms)

/-- PricingCandidate::from_price (price_deriving.rs); the panic of
all_priced propagates. -/
def PricingCandidate.from_price (price : Nat) (ctx : SalesContext) :
    Option PricingCandidate :=
  (all_priced price ctx).map PricingCandidate.from_iter

/-- Modelled from the spec: PricingMatch::batches is called by
sale/ambiguity.rs but its body is not under src/.  Spec section 3: the set of
distinct Batch values referenced, one element for Multiple and two for the
other variants; modelled as the list of referenced batches with
membership-based set predicates. -/
def PricingMatch.batches : PricingMatch → List Batch
  | .Multiple ba => [ba.batch]
  | .PromoCombo pba ba => [pba.batch, ba.batch]
  | .TurnOfBatch ba1 ba2 => [ba1.batch, ba2.batch]

/-- Modelled from the spec: PricingMatch::batch_after is called by
sale/ambiguity.rs and sale/plus.rs but its body is not under src/.  Spec
section 3: the highest-numbered batch referenced; for Multiple that batch,
for PromoCombo the non-promotional batch, for TurnOfBatch the second
amount's batch. -/
def PricingMatch.batch_after : PricingMatch → Batch
  | .Multiple ba => ba.batch
  | .PromoCombo _ ba => ba.batch
  | .TurnOfBatch _ ba2 => ba2.batch

/-- Sale channel (sale/kind.rs): online with a fee fraction, or offline. -/
inductive SaleKind where
  | Online : Nat × Nat → SaleKind
  | Offline : SaleKind
deriving DecidableEq

/-- Seller identity (sale/kind.rs): the online channel or a named offline
selling point. -/
inductive Seller where
  | Online : Seller
  | Offline : String → Seller
deriving DecidableEq

/-- A sale record (sale.rs).  The timestamp is modelled as an integer. -/
structure Sale where
  when : Int
  buyer_email : Option String
  buyer_username : Option String
  value : Nat
  sale_kind : SaleKind
  seller_name : Option String
  seller_id : Option String
  seller_email : Option String
  token : String
  sale_id : String
  card_name : Option String
  card_pfx : Option String
  card_sfx : Option String
deriving DecidableEq

/-- Sale::seller (sale.rs): online sales share one identity, offline sales
are identified by their selling-point name when present. -/
def Sale.seller (s : Sale) : Option Seller :=
  match s.sale_kind, s.seller_name with
  | .Online _, _ => some .Online
  | .Offline, none => none
  | .Offline, some n => some (.Offline n)

/-- A sale plus inferred data (sale/plus.rs, SalePlus). -/
structure SalePlus where
  sale : Sale
  pricecand : PricingCandidate
  pricematch : Option PricingMatch
deriving DecidableEq

/-- SalePlus::resolve (sale/plus.rs). -/
def SalePlus.resolve (s : SalePlus) (pm : PricingMatch) : SalePlus :=
  { s with pricematch := some pm }

/-- The ledger (sale/plus.rs, SalesPlus). -/
structure SalesPlus where
  sales : List SalePlus
  context : SalesContext
deriving DecidableEq

/-- Loop body of SalesPlus::comb_simple (sale/plus.rs): thread the current
known batch left to right; a resolved sale updates it, an unresolved
ambiguous sale is filtered against it (collecting into a HashSet, hence
dedup), resolving on a singleton, shrinking otherwise, skipping when the
filter empties. -/
def comb_simple_go : Option Batch → List SalePlus → List SalePlus × Nat
  | _, [] => ([], 0)
  | batch, s :: rest =>
    match s.pricematch with
    | some pm =>
      let r := comb_simple_go (some pm.batch_after) rest
      (s :: r.1, r.2)
    | none =>
      match batch with
      | none =>
        let r := comb_simple_go none rest
        (s :: r.1, r.2)
      | some b =>
        match s.pricecand with
        | .Ambiguous hs =>
          match (hs.filter (fun pc => pc.batch_after == b)).dedup with
          | [] =>
            let r := comb_simple_go (some b) rest
            (s :: r.1, r.2)
          | [m] =>
            let r := comb_simple_go (some b) rest
            (s.resolve m :: r.1, r.2 + 1)
          | m1 :: m2 :: ms =>
            let r := comb_simple_go (some b) rest
            ({ s with pricecand := .Ambiguous (m1 :: m2 :: ms) } :: r.1, r.2)
        | _ =>
          let r := comb_simple_go (some b) rest
          (s :: r.1, r.2)

/-- SalesPlus::comb_simple (sale/plus.rs): one temporal left-to-right pass,
returning the mutated ledger and the number of resolutions. -/
def comb_simple (sp : SalesPlus) : SalesPlus × Nat :=
  let r := comb_simple_go none sp.sales
  ({ sp with sales := r.1 }, r.2)

/-- Loop body of temporal_lookbehind (sale/ambiguity.rs), a line-for-line
copy of the comb_simple loop. -/
def temporal_go : Option Batch → List SalePlus → List SalePlus × Nat
  | _, [] => ([], 0)
  | batch, s :: rest =>
    match s.pricematch with
    | some pm =>
      let r := temporal_go (some pm.batch_after) rest
      (s :: r.1, r.2)
    | none =>
      match batch with
      | none =>
        let r := temporal_go none rest
        (s :: r.1, r.2)
      | some b =>
        match s.pricecand with
        | .Ambiguous hs =>
          match (hs.filter (fun pc => pc.batch_after == b)).dedup with
          | [] =>
            let r := temporal_go (some b) rest
            (s :: r.1, r.2)
          | [m] =>
            let r := temporal_go (some b) rest
            (s.resolve m :: r.1, r.2 + 1)
          | m1 :: m2 :: ms =>
            let r := temporal_go (some b) rest
            ({ s with pricecand := .Ambiguous (m1 :: m2 :: ms) } :: r.1, r.2)
        | _ =>
          let r := temporal_go (some b) rest
          (s :: r.1, r.2)

/-- The TemporalLookbehind solver (sale/ambiguity.rs, temporal_lookbehind). -/
def temporal_lookbehind (sp : SalesPlus) : SalesPlus × Nat :=
  let r := temporal_go none sp.sales
  ({ sp with sales := r.1 }, r.2)

/-- HashSet::is_disjoint on batch lists (membership based). -/
def listDisjoint (a b : List Batch) : Bool :=
  a.all (fun x => !(b.contains x))

/-- HashSet::is_subset on batch lists (membership based). -/
def listSubset (a b : List Batch) : Bool :=
  a.all (fun x => b.contains x)

/-- Per-seller loop of seller_lookbehind (sale/ambiguity.rs): walk the whole
ledger, acting only on the given seller's sales; a resolved sale records its
batch set and extends the accumulated batch set; an unresolved ambiguous
sale is filtered to candidates sharing a batch with the accumulated set
(collected into a HashSet, hence dedup); a singleton resolves, otherwise on
a unique no-new-batch candidate the source resolves to the FIRST element of
the filtered set (newcands), and the filtered set is written back. -/
def seller_go (slr : Seller) :
    Option (List Batch) → List Batch → List SalePlus → List SalePlus × Nat
  | _, _, [] => ([], 0)
  | bo, acc, s :: rest =>
    if s.sale.seller == some slr then
      match s.pricematch with
      | some pm =>
        let r := seller_go slr (some pm.batches) (acc ++ pm.batches) rest
        (s :: r.1, r.2)
      | none =>
        match bo with
        | none =>
          let r := seller_go slr none acc rest
          (s :: r.1, r.2)
        | some bhs =>
          match s.pricecand with
          | .Ambiguous cands =>
            let newcands :=
              (cands.filter (fun pcm => !(listDisjoint pcm.batches acc))).dedup
            if newcands.length > 0 then
              if newcands.length == 1 then
                let s' := { s with
                  pricematch := newcands.head?,
                  pricecand := PricingCandidate.from_iter newcands }
                let r := seller_go slr (some bhs) acc rest
                (s' :: r.1, r.2 + 1)
              else
                let nonews :=
                  (newcands.filter (fun pm => listSubset pm.batches bhs)).dedup
                if nonews.length == 1 then
                  let s' := { s with
                    pricematch := newcands.head?,
                    pricecand := PricingCandidate.from_iter newcands }
                  let r := seller_go slr (some bhs) acc rest
                  (s' :: r.1, r.2 + 1)
                else
                  let s' :=
                    { s with pricecand := PricingCandidate.from_iter newcands }
                  let r := seller_go slr (some bhs) acc rest
                  (s' :: r.1, r.2)
            else
              let r := seller_go slr (some bhs) acc rest
              (s :: r.1, r.2)
          | _ =>
            let r := seller_go slr (some bhs) acc rest
            (s :: r.1, r.2)
    else
      let r := seller_go slr bo acc rest
      (s :: r.1, r.2)

/-- The SellerLookBehind solver (sale/ambiguity.rs, seller_lookbehind):
collect the distinct seller identities (a HashSet, modelled by dedup) and
run the per-seller pass for each, accumulating the change count. -/
def seller_lookbehind (sp : SalesPlus) : SalesPlus × Nat :=
  let sellers := (sp.sales.filterMap (fun s => s.sale.seller)).dedup
  let r := sellers.foldl
    (fun st slr =>
      let q := seller_go slr none [] st.1
      (q.1, st.2 + q.2))
    (sp.sales, 0)
  ({ sp with sales := r.1 }, r.2)

/-- The DoNothing solver (sale/ambiguity.rs, do_nothing). -/
def do_nothing (sp : SalesPlus) : SalesPlus × Nat := (sp, 0)

/-- The closed set of ambiguity solvers (sale/ambiguity.rs). -/
inductive AmbiguitySolver where
  | DoNothing : AmbiguitySolver
  | TemporalLookbehind : AmbiguitySolver
  | SellerLookBehind : AmbiguitySolver
deriving DecidableEq

/-- The Default impl for AmbiguitySolver (sale/ambiguity.rs). -/
def AmbiguitySolver.default : AmbiguitySolver := .SellerLookBehind

/-- Rust str::to_lowercase, modelled character-wise (the solver names it is
compared against are ASCII). -/
def strToLower (s : String) : String := ⟨s.data.map Char.toLower⟩

/-- TryFrom a string for AmbiguitySolver (sale/ambiguity.rs): lowercase,
then match the exact names. -/
def AmbiguitySolver.try_from (s : String) : Option AmbiguitySolver :=
  match strToLower s with
  | "nothing" => some .DoNothing
  | "temporal" => some .TemporalLookbehind
  | "seller" => some .SellerLookBehind
  | _ => none

/-- AmbiguitySolver::name (sale/ambiguity.rs). -/
def AmbiguitySolver.name : AmbiguitySolver → String
  | .DoNothing => "nothing"
  | .TemporalLookbehind => "temporal"
  | .SellerLookBehind => "seller"

/-- The From conversion of a solver to its pass function
(sale/ambiguity.rs). -/
def AmbiguitySolver.fn : AmbiguitySolver → SalesPlus → SalesPlus × Nat
  | .DoNothing => do_nothing
  | .TemporalLookbehind => temporal_lookbehind
  | .SellerLookBehind => seller_lookbehind

/-- The resolution loop of App::try_load (app.rs): run comb_simple until a
pass returns 0, with explicit fuel (none means the fuel ran out before a
zero pass). -/
def app_driver : Nat → SalesPlus → Option SalesPlus
  | 0, _ => none
  | n + 1, sp =>
    let r := comb_simple sp
    if r.2 = 0 then some r.1 else app_driver n r.1

/-- The candidate set underlying a PricingCandidate, viewed as a list. -/
def candSet : PricingCandidate → List PricingMatch
  | .Precise m => [m]
  | .Ambiguous l => l
  | .NoMatch => []

/-- The invariant of sale/plus.rs (From for SalePlus): a Precise candidate
comes with the corresponding resolved match. -/
def PreciseInv (s : SalePlus) : Prop :=
  ∀ m, s.pricecand = PricingCandidate.Precise m → s.pricematch = some m

/-- One transaction narrowed by a resolver pass: the sale record is intact,
the candidate set did not grow, a resolved match is preserved unchanged, and
the Precise invariant is preserved. -/
def Narrowed (s' s : SalePlus) : Prop :=
  s'.sale = s.sale ∧
  (∀ m, m ∈ candSet s'.pricecand → m ∈ candSet s.pricecand) ∧
  (∀ m, s.pricematch = some m → s'.pricematch = some m) ∧
  (PreciseInv s → PreciseInv s')

/-- Number of resolved transactions in a ledger sequence. -/
def resolvedCount (l : List SalePlus) : Nat :=
  (l.filter (fun s => s.pricematch.isSome)).length

/-- Well-formedness of a match as stated by the data model of spec section 3:
a PromoCombo pairs a promotional amount with a first-numbered-batch amount,
and a TurnOfBatch straddles two consecutive batches. -/
def PricingMatch.WF : PricingMatch → Prop
  | .Multiple _ => True
  | .PromoCombo pba ba =>
    pba.batch.num = BatchNum.Promo ∧ ba.batch.num = BatchNum.Numbered 1
  | .TurnOfBatch ba1 ba2 => ba2.batch.num.inum = ba1.batch.num.inum + 1

/-! Concrete fixtures used by the counterexample, failing-input and witness
theorems below. -/

/-- An offline sale by the selling point named A. -/
def saleA : Sale :=
  { when := 0, buyer_email := none, buyer_username := none, value := 0,
    sale_kind := .Offline, seller_name := some "A", seller_id := none,
    seller_email := none, token := "", sale_id := "", card_name := none,
    card_pfx := none, card_sfx := none }

/-- An online sale. -/
def saleOn : Sale :=
  { saleA with sale_kind := .Online (11, 10), seller_name := none }

/-- The default 2022 context from context.rs. -/
def ctxAny : SalesContext := ⟨(11, 10), iter2bp [5500, 6500, 7500, 8500], some 1⟩

/-- The scenario catalog of spec section 8 with no promo limit. -/
def ctxC5 : SalesContext := ⟨(11, 10), iter2bp [5000, 6000], none⟩

/-- The scenario catalog with a promo limit of one per person. -/
def ctxC2 : SalesContext := ⟨(11, 10), iter2bp [5000, 6000], some 1⟩

/-- A catalog whose single batch has price zero. -/
def ctxC4 : SalesContext := ⟨(11, 10), iter2bp [0], none⟩

/-- The promo-plus-first-batch combination worth 11000 cents. -/
def pmPromo : PricingMatch :=
  .PromoCombo ⟨⟨.Promo, 5000⟩, 1⟩ ⟨⟨.Numbered 1, 6000⟩, 1⟩

/-- The turn-of-batch combination worth 11000 cents. -/
def pmTurn : PricingMatch :=
  .TurnOfBatch ⟨⟨.Promo, 5000⟩, 1⟩ ⟨⟨.Numbered 1, 6000⟩, 1⟩

/-- First numbered batch at 6000 cents. -/
def bN1 : Batch := ⟨.Numbered 1, 6000⟩

/-- Second numbered batch at 7500 cents. -/
def bN2 : Batch := ⟨.Numbered 2, 7500⟩

/-- Third numbered batch at 8500 cents. -/
def bN3 : Batch := ⟨.Numbered 3, 8500⟩

/-- The resolved match of the first sale of the seller-lookbehind failing
input: one first-batch ticket. -/
def m0 : PricingMatch := .Multiple ⟨bN1, 1⟩

/-- A turn-of-batch candidate that introduces a new batch beyond bN1. -/
def mTurn : PricingMatch := .TurnOfBatch ⟨bN1, 1⟩ ⟨bN2, 1⟩

/-- The no-new-batch candidate: two first-batch tickets. -/
def mSub : PricingMatch := .Multiple ⟨bN1, 2⟩

/-- Failing input for the seller-lookbehind tie-break: seller A has one
resolved sale on bN1, then an ambiguous sale whose candidates are mTurn
(listed first) and mSub, of which exactly mSub introduces no new batch. -/
def spC1 : SalesPlus :=
  ⟨[⟨saleA, .Precise m0, some m0⟩, ⟨saleA, .Ambiguous [mTurn, mSub], none⟩],
    ctxAny⟩

/-- One second-batch ticket. -/
def n1 : PricingMatch := .Multiple ⟨bN2, 1⟩

/-- Two second-batch tickets. -/
def n2 : PricingMatch := .Multiple ⟨bN2, 2⟩

/-- One third-batch ticket. -/
def n3 : PricingMatch := .Multiple ⟨bN3, 1⟩

/-- Input on which a comb_simple pass returns zero yet shrinks a candidate
set: the known batch bN2 filters the second sale's candidates to two,
resolving nothing. -/
def spC6 : SalesPlus :=
  ⟨[⟨saleOn, .Precise n1, some n1⟩, ⟨saleOn, .Ambiguous [n1, n2, n3], none⟩],
    ctxAny⟩

/-- A small ledger used to witness the resolver invariants: one online
resolved sale followed by an ambiguous one. -/
def spC7 : SalesPlus :=
  ⟨[⟨saleOn, .Precise n1, some n1⟩, ⟨saleOn, .Ambiguous [n2, n3], none⟩],
    ctxAny⟩

/-- C1: evaluating the seller-lookbehind pass at the failing input.  The
intersect-filtered candidate set of the second sale is [mTurn, mSub] and
exactly mSub introduces no batch beyond the last resolved match, yet the
pass resolves the sale to mTurn, the first element of the filtered set,
while counting one change. -/
theorem seller_lookbehind_picks_first_not_nonews :
    [mTurn, mSub].filter (fun pm => listSubset pm.batches m0.batches) = [mSub]
    ∧ mTurn ≠ mSub
    ∧ (seller_lookbehind spC1).2 = 1
    ∧ (seller_lookbehind spC1).1.sales.map (fun s => s.pricematch)
      = [some m0, some mTurn] := by
  decide

/-- C2: with catalog [Promo=5000, Numbered(1)=6000] and promo limit 1, the
in-limit combination of one promo and one first-batch ticket sums exactly to
the target 11000, yet enumeration emits no PromoCombo at all, because the
source iterates promoQty over the half-open range from 1 to promoLimit. -/
theorem all_priced_promo_limit_exclusive :
    all_priced 11000 ctxC2 = some [pmTurn]
    ∧ pmPromo.price = 11000
    ∧ pmPromo ≠ pmTurn := by
  decide

/-- C3 counterexample: the string none selects no resolver (the conversion
recognises nothing, temporal and seller only). -/
theorem try_from_none_fails : AmbiguitySolver.try_from "none" = none := by
  decide

/-- C3 amended: resolvers are selectable by the strings nothing, temporal
and seller; the Default solver is SellerLookBehind; and the resolution phase
of App::try_load always iterates comb_simple (the temporal pass) to
fixpoint, regardless of any solver selection. -/
theorem solver_strings_default_and_driver :
    AmbiguitySolver.try_from "nothing" = some .DoNothing
    ∧ AmbiguitySolver.try_from "temporal" = some .TemporalLookbehind
    ∧ AmbiguitySolver.try_from "seller" = some .SellerLookBehind
    ∧ AmbiguitySolver.default = .SellerLookBehind
    ∧ ∀ (n : Nat) (sp : SalesPlus),
        app_driver (n + 1) sp =
          if (comb_simple sp).2 = 0 then some (comb_simple sp).1
          else app_driver n (comb_simple sp).1 :=
  ⟨by decide, by decide, by decide, rfl, fun _ _ => rfl⟩

/-- C4: on a non-empty catalog whose minimum batch price is zero, the source
faults computing the quantity bound (usize division by zero, a Rust panic,
modelled as none), so enumeration does not return a result. -/
theorem all_priced_zero_min_faults :
    all_priced 5 ctxC4 = none ∧ ctxC4.batches ≠ [] := by
  decide

/-- C5 counterexample: at price 11000 the enumeration also emits a
PromoCombo summing to 11000, so the candidate is the two-element Ambiguous
set, not Precise(TurnOfBatch). -/
theorem from_price_11000_not_precise :
    PricingCandidate.from_price 11000 ctxC5
      = some (.Ambiguous [pmPromo, pmTurn])
    ∧ PricingCandidate.from_price 11000 ctxC5 ≠ some (.Precise pmTurn) := by
  decide

/-- C5 amended: price 6000 yields Precise(Multiple((Numbered(1),1))); price
11000 yields the Ambiguous candidate whose two members are
PromoCombo((Promo,1),(Numbered(1),1)) and
TurnOfBatch((Promo,1),(Numbered(1),1)). -/
theorem scenario_prices_6000_11000 :
    PricingCandidate.from_price 6000 ctxC5 = some (.Precise m0)
    ∧ PricingCandidate.from_price 11000 ctxC5
      = some (.Ambiguous [pmPromo, pmTurn]) := by
  decide

/-- C6 counterexample: this comb_simple pass returns 0 yet changes the
ledger, shrinking the second sale's ambiguous candidate set from three
members to two without resolving anything. -/
theorem comb_simple_zero_pass_changes_state :
    (comb_simple spC6).2 = 0 ∧ (comb_simple spC6).1 ≠ spC6 := by
  decide

/-- Helper: the two copies of the temporal loop body are equal. -/
theorem temporal_go_eq_comb_go : ∀ b l, temporal_go b l = comb_simple_go b l := by
  intro b l
  induction l generalizing b with
  | nil => rfl
  | cons s rest ih => simp only [temporal_go, comb_simple_go, ih]

/-- C10: temporal_lookbehind (sale/ambiguity.rs) and SalesPlus::comb_simple
(sale/plus.rs) are extensionally equal: on every ledger they return the same
change count and the same final transaction sequence. -/
theorem temporal_lookbehind_eq_comb_simple (sp : SalesPlus) :
    temporal_lookbehind sp = comb_simple sp := by
  simp only [temporal_lookbehind, comb_simple, temporal_go_eq_comb_go]

/-- Helper: the BatchNum order is reflexive. -/
theorem cmp_self_ne_gt (a : BatchNum) : BatchNum.cmp a a ≠ Ordering.gt := by
  cases a with
  | Promo => simp [BatchNum.cmp]
  | Numbered n => simp [BatchNum.cmp, Nat.compare_eq_gt]

/-- C9: for every match that is well-formed per the data model, batch_after
is the maximum element of batches under the BatchNum total order. -/
theorem batch_after_is_max_batch (m : PricingMatch) (h : m.WF) :
    m.batch_after ∈ m.batches ∧
      ∀ b ∈ m.batches, BatchNum.le b.num m.batch_after.num := by
  cases m with
  | Multiple ba =>
    refine ⟨by simp [PricingMatch.batches, PricingMatch.batch_after], ?_⟩
    intro b hb
    simp only [PricingMatch.batches, List.mem_singleton] at hb
    subst hb
    exact cmp_self_ne_gt _
  | PromoCombo pba ba =>
    obtain ⟨h1, h2⟩ := h
    refine ⟨by simp [PricingMatch.batches, PricingMatch.batch_after], ?_⟩
    intro b hb
    simp only [PricingMatch.batches, List.mem_cons, List.mem_singleton,
      List.not_mem_nil, or_false] at hb
    rcases hb with rfl | rfl
    · simp [BatchNum.le, PricingMatch.batch_after, h1, h2, BatchNum.cmp]
    · exact cmp_self_ne_gt _
  | TurnOfBatch a1 a2 =>
    refine ⟨by simp [PricingMatch.batches, PricingMatch.batch_after], ?_⟩
    intro b hb
    simp only [PricingMatch.batches, List.mem_cons, List.mem_singleton,
      List.not_mem_nil, or_false] at hb
    rcases hb with rfl | rfl
    · simp only [PricingMatch.WF] at h
      simp only [BatchNum.le, PricingMatch.batch_after]
      cases h1 : a1.batch.num with
      | Promo =>
        cases h2 : a2.batch.num with
        | Promo => rw [h1, h2] at h; simp [BatchNum.inum] at h
        | Numbered k => simp [BatchNum.cmp]
      | Numbered j =>
        cases h2 : a2.batch.num with
        | Promo => rw [h1, h2] at h; simp [BatchNum.inum] at h
        | Numbered k =>
          rw [h1, h2] at h
          simp only [BatchNum.inum] at h
          simp [BatchNum.cmp, Nat.compare_eq_gt, h]
    · exact cmp_self_ne_gt _

/-- C9 witness: batch_after of a concrete promo multiple is the maximum of
its batch set. -/
theorem batch_after_is_max_batch_witness :
    (PricingMatch.Multiple ⟨⟨.Promo, 5500⟩, 2⟩).batch_after
        ∈ (PricingMatch.Multiple ⟨⟨.Promo, 5500⟩, 2⟩).batches ∧
      ∀ b ∈ (PricingMatch.Multiple ⟨⟨.Promo, 5500⟩, 2⟩).batches,
        BatchNum.le b.num
          (PricingMatch.Multiple ⟨⟨.Promo, 5500⟩, 2⟩).batch_after.num :=
  batch_after_is_max_batch _ trivial

/-- Helper: a match kept by stage 1 prices exactly to the target. -/
theorem mem_all_multiples {price : Nat} {allba : List BatchAmount}
    {m : PricingMatch} (hm : m ∈ all_multiples price allba) :
    m.price = price := by
  simp only [all_multiples, List.mem_filterMap] at hm
  obtain ⟨ba, -, hba⟩ := hm
  by_cases h : ba_price ba = price
  · rw [if_pos h] at hba
    cases hba
    simpa [PricingMatch.price] using h
  · rw [if_neg h] at hba
    exact Option.noConfusion hba

/-- Helper: a match kept by stage 2 prices exactly to the target. -/
theorem mem_all_promocombos {price : Nat} {op : Option Batch} {prEnd : Nat}
    {bi : List BatchAmount} {m : PricingMatch}
    (hm : m ∈ all_promocombos price op prEnd bi) : m.price = price := by
  cases op with
  | none => simp [all_promocombos] at hm
  | some promo =>
    simp only [all_promocombos, List.mem_filterMap] at hm
    obtain ⟨q, -, hq⟩ := hm
    by_cases h1 : q.2.batch.num.inum ≠ 1
    · rw [if_pos h1] at hq
      exact Option.noConfusion hq
    · rw [if_neg h1] at hq
      by_cases h2 : (PricingMatch.PromoCombo q.1 q.2).price = price
      · rw [if_pos h2] at hq
        cases hq
        exact h2
      · rw [if_neg h2] at hq
        exact Option.noConfusion hq

/-- Helper: a match kept by stage 3 prices exactly to the target. -/
theorem mem_all_tobs {price : Nat} {bs : List Batch} {w : Nat}
    {m : PricingMatch} (hm : m ∈ all_tobs price bs w) : m.price = price := by
  simp only [all_tobs, List.mem_filterMap] at hm
  obtain ⟨q, -, hq⟩ := hm
  by_cases h : (PricingMatch.TurnOfBatch q.1 q.2).price = price
  · rw [if_pos h] at hq
    cases hq
    exact h
  · rw [if_neg h] at hq
    exact Option.noConfusion hq

/-- C8: every match returned by enumeration, of any variant, prices exactly
to the requested amount by integer equality. -/
theorem all_priced_price_exact (price : Nat) (ctx : SalesContext)
    (l : List PricingMatch) (hl : all_priced price ctx = some l)
    (m : PricingMatch) (hm : m ∈ l) : m.price = price := by
  cases hmin : (ctx.batches.map Prod.snd).min? with
  | none =>
    simp only [all_priced, hmin, Option.some.injEq] at hl
    subst hl
    simp at hm
  | some mp =>
    by_cases hz : mp = 0
    · simp [all_priced, hmin, hz] at hl
    · simp only [all_priced, hmin, if_neg hz, Option.some.injEq] at hl
      subst hl
      rcases List.mem_append.mp hm with h | h
      · rcases List.mem_append.mp h with h1 | h1
        · exact mem_all_multiples h1
        · exact mem_all_promocombos h1
      · exact mem_all_tobs h

/-- C8 witness: applied at price 11000 over the no-limit scenario catalog,
at the PromoCombo member of the returned set. -/
theorem all_priced_price_exact_witness : pmPromo.price = 11000 :=
  all_priced_price_exact 11000 ctxC5 [pmPromo, pmTurn] (by decide) pmPromo
    (by decide)

/-- Helper: resolvedCount over a cons. -/
theorem resolvedCount_cons (s : SalePlus) (l : List SalePlus) :
    resolvedCount (s :: l)
      = (if s.pricematch.isSome then 1 else 0) + resolvedCount l := by
  simp only [resolvedCount, List.filter_cons]
  split <;> simp [Nat.add_comm]

/-- Helper: a comb pass resolves exactly as many transactions as it
counts. -/
theorem comb_go_count (b : Option Batch) (l : List SalePlus) :
    resolvedCount (comb_simple_go b l).1
      = resolvedCount l + (comb_simple_go b l).2 := by
  induction l generalizing b with
  | nil => rfl
  | cons s rest ih =>
    simp only [comb_simple_go]
    cases hpm : s.pricematch with
    | some pm =>
      simp [resolvedCount_cons, hpm, ih]
      try omega
    | none =>
      cases b with
      | none =>
        simp [resolvedCount_cons, hpm, ih]
        try omega
      | some bb =>
        cases hc : s.pricecand with
        | Precise p =>
          simp [resolvedCount_cons, hpm, ih]
          try omega
        | NoMatch =>
          simp [resolvedCount_cons, hpm, ih]
          try omega
        | Ambiguous hs =>
          cases hd : (hs.filter fun pc => pc.batch_after == bb).dedup with
          | nil =>
            simp only [hd]
            simp [resolvedCount_cons, hpm, ih]
            try omega
          | cons m1 tl =>
            cases tl with
            | nil =>
              simp only [hd]
              simp [resolvedCount_cons, hpm, ih, SalePlus.resolve]
              try omega
            | cons m2 ms =>
              simp only [hd]
              simp [resolvedCount_cons, hpm, ih]
              try omega

/-- Helper: one narrowed transaction relates reflexively. -/
theorem narrowed_refl (s : SalePlus) : Narrowed s s :=
  ⟨rfl, fun _ h => h, fun _ h => h, id⟩

/-- Helper: narrowing composes. -/
theorem narrowed_trans {a b c : SalePlus} (h1 : Narrowed a b)
    (h2 : Narrowed b c) : Narrowed a c :=
  ⟨h1.1.trans h2.1, fun m hm => h2.2.1 m (h1.2.1 m hm),
    fun m hm => h1.2.2.1 m (h2.2.2.1 m hm),
    fun hp => h1.2.2.2 (h2.2.2.2 hp)⟩

/-- Helper: Forall2 narrowing is reflexive. -/
theorem forall2_narrowed_refl (l : List SalePlus) :
    List.Forall₂ Narrowed l l :=
  List.forall₂_same.mpr (fun s _ => narrowed_refl s)

/-- Helper: Forall2 narrowing composes. -/
theorem forall2_narrowed_trans {a b c : List SalePlus}
    (h1 : List.Forall₂ Narrowed a b) (h2 : List.Forall₂ Narrowed b c) :
    List.Forall₂ Narrowed a c := by
  induction h2 generalizing a with
  | nil =>
    cases h1
    exact .nil
  | cons hbc h2t ih =>
    cases h1 with
    | cons hab h1t => exact .cons (narrowed_trans hab hbc) (ih h1t)

/-- Helper: members of the candidate set of a collected PricingCandidate
come from the collected list. -/
theorem candSet_from_iter {l : List PricingMatch} {m : PricingMatch}
    (hm : m ∈ candSet (PricingCandidate.from_iter l)) : m ∈ l := by
  revert hm
  unfold PricingCandidate.from_iter
  cases hd : l.dedup with
  | nil =>
    intro hm
    simp [candSet] at hm
  | cons x tl =>
    cases tl with
    | nil =>
      intro hm
      simp only [candSet, List.mem_singleton] at hm
      subst hm
      exact List.mem_dedup.mp (by rw [hd]; exact List.mem_cons_self _ _)
    | cons y ys =>
      intro hm
      simp only [candSet] at hm
      exact List.mem_dedup.mp (by rw [hd]; exact hm)

/-- Helper: when collecting yields a Precise match, that match heads the
collected list. -/
theorem from_iter_precise_head {l : List PricingMatch} {m : PricingMatch}
    (h : PricingCandidate.from_iter l = .Precise m) : l.head? = some m := by
  revert h
  unfold PricingCandidate.from_iter
  cases hd : l.dedup with
  | nil =>
    intro h
    exact PricingCandidate.noConfusion h
  | cons x tl =>
    cases tl with
    | nil =>
      intro h
      have hx : x = m := by
        injection h
      subst hx
      cases hl : l with
      | nil => rw [hl] at hd; simp at hd
      | cons a t =>
        have ha : a ∈ l.dedup := List.mem_dedup.mpr (by rw [hl]; exact List.mem_cons_self _ _)
        rw [hd] at ha
        simp only [List.mem_singleton] at ha
        simp [ha]
    | cons y ys =>
      intro h
      exact PricingCandidate.noConfusion h

/-- Helper: collecting a duplicate-free list of at least two matches yields
an Ambiguous candidate. -/
theorem from_iter_nodup_ge2 {l : List PricingMatch} (hn : l.Nodup)
    (h2 : 2 ≤ l.length) : PricingCandidate.from_iter l = .Ambiguous l := by
  have hd : l.dedup = l := List.dedup_eq_self.mpr hn
  unfold PricingCandidate.from_iter
  rcases l with - | ⟨a, - | ⟨b, t⟩⟩
  · simp at h2
  · simp at h2
  · rw [hd]

/-- Helper: every comb (temporal) pass narrows every transaction. -/
theorem comb_go_narrows (b : Option Batch) (l : List SalePlus) :
    List.Forall₂ Narrowed (comb_simple_go b l).1 l := by
  induction l generalizing b with
  | nil => exact .nil
  | cons s rest ih =>
    simp only [comb_simple_go]
    cases hpm : s.pricematch with
    | some pm => exact .cons (narrowed_refl s) (ih _)
    | none =>
      cases b with
      | none => exact .cons (narrowed_refl s) (ih _)
      | some bb =>
        cases hc : s.pricecand with
        | Precise p => exact .cons (narrowed_refl s) (ih _)
        | NoMatch => exact .cons (narrowed_refl s) (ih _)
        | Ambiguous hs =>
          cases hd : (hs.filter fun pc => pc.batch_after == bb).dedup with
          | nil =>
            simp only [hd]
            exact .cons (narrowed_refl s) (ih _)
          | cons m1 tl =>
            cases tl with
            | nil =>
              simp only [hd]
              refine .cons ⟨rfl, fun _ hm => hm, ?_, ?_⟩ (ih _)
              · intro m hm
                rw [hpm] at hm
                exact Option.noConfusion hm
              · intro _ m hmp
                simp only [SalePlus.resolve] at hmp
                rw [hc] at hmp
                exact PricingCandidate.noConfusion hmp
            | cons m2 ms =>
              simp only [hd]
              refine .cons ⟨rfl, ?_, ?_, ?_⟩ (ih _)
              · intro m hm
                simp only [candSet] at hm
                rw [hc]
                simp only [candSet]
                have h1 : m ∈ (hs.filter fun pc => pc.batch_after == bb).dedup := by
                  rw [hd]
                  exact hm
                exact List.mem_of_mem_filter (List.mem_dedup.mp h1)
              · intro m hm
                rw [hpm] at hm
                exact Option.noConfusion hm
              · intro _ m hmp
                exact PricingCandidate.noConfusion hmp

/-- Helper: every per-seller pass narrows every transaction. -/
theorem seller_go_narrows (slr : Seller) (bo : Option (List Batch))
    (acc : List Batch) (l : List SalePlus) :
    List.Forall₂ Narrowed (seller_go slr bo acc l).1 l := by
  induction l generalizing bo acc with
  | nil => exact .nil
  | cons s rest ih =>
    simp only [seller_go]
    by_cases hsel : (s.sale.seller == some slr) = true
    · rw [if_pos hsel]
      cases hpm : s.pricematch with
      | some pm => exact .cons (narrowed_refl s) (ih _ _)
      | none =>
        cases bo with
        | none => exact .cons (narrowed_refl s) (ih _ _)
        | some bhs =>
          cases hc : s.pricecand with
          | Precise p => exact .cons (narrowed_refl s) (ih _ _)
          | NoMatch => exact .cons (narrowed_refl s) (ih _ _)
          | Ambiguous cands =>
            dsimp only
            by_cases hpos :
              (cands.filter fun pcm => !(listDisjoint pcm.batches acc)).dedup.length > 0
            · rw [if_pos hpos]
              have hsub : ∀ m,
                  m ∈ candSet (PricingCandidate.from_iter
                    (cands.filter fun pcm => !(listDisjoint pcm.batches acc)).dedup) →
                  m ∈ candSet s.pricecand := by
                intro m hm
                rw [hc]
                simp only [candSet]
                exact List.mem_of_mem_filter (List.mem_dedup.mp (candSet_from_iter hm))
              have hres : ∀ m, s.pricematch = some m →
                  ((cands.filter fun pcm => !(listDisjoint pcm.batches acc)).dedup.head?
                    = some m) := by
                intro m hm
                rw [hpm] at hm
                exact Option.noConfusion hm
              have hprec : PreciseInv
                  { s with
                    pricematch :=
                      (cands.filter fun pcm => !(listDisjoint pcm.batches acc)).dedup.head?,
                    pricecand := PricingCandidate.from_iter
                      (cands.filter fun pcm => !(listDisjoint pcm.batches acc)).dedup } := by
                intro m hmp
                simp only at hmp ⊢
                rw [from_iter_precise_head hmp]
              by_cases hone :
                ((cands.filter fun pcm => !(listDisjoint pcm.batches acc)).dedup.length == 1)
                  = true
              · rw [if_pos hone]
                exact .cons ⟨rfl, hsub, hres, fun _ => hprec⟩ (ih _ _)
              · rw [if_neg hone]
                by_cases hnews :
                  (((cands.filter fun pcm => !(listDisjoint pcm.batches acc)).dedup.filter
                    fun pm => listSubset pm.batches bhs).dedup.length == 1) = true
                · rw [if_pos hnews]
                  exact .cons ⟨rfl, hsub, hres, fun _ => hprec⟩ (ih _ _)
                · rw [if_neg hnews]
                  refine .cons ⟨rfl, hsub, ?_, ?_⟩ (ih _ _)
                  · intro m hm
                    rw [hpm] at hm
                    exact Option.noConfusion hm
                  intro _ m hmp
                  simp only at hmp
                  rw [from_iter_nodup_ge2 (List.nodup_dedup _) ?_] at hmp
                  · exact PricingCandidate.noConfusion hmp
                  · have h1 :
                        (cands.filter fun pcm => !(listDisjoint pcm.batches acc)).dedup.length
                          ≠ 1 := by
                      intro hlen
                      exact hone (by simp [hlen])
                    omega
            · rw [if_neg hpos]
              exact .cons (narrowed_refl s) (ih _ _)
    · rw [if_neg hsel]
      exact .cons (narrowed_refl s) (ih _ _)

/-- Helper: the seller fold narrows every transaction. -/
theorem seller_fold_narrows (sellers : List Seller) (init : List SalePlus)
    (k : Nat) :
    List.Forall₂ Narrowed
      (sellers.foldl
        (fun st slr =>
          let q := seller_go slr none [] st.1
          (q.1, st.2 + q.2))
        (init, k)).1 init := by
  induction sellers generalizing init k with
  | nil => exact forall2_narrowed_refl init
  | cons slr rest ih =>
    simp only [List.foldl_cons]
    exact forall2_narrowed_trans (ih _ _) (seller_go_narrows slr none [] init)

/-- C7: every resolver pass, for each of the three solvers, narrows every
transaction of the ledger: the candidate set never grows, a resolved match
is never dropped or changed, and the Precise-candidate invariant is
preserved. -/
theorem resolvers_narrow (solver : AmbiguitySolver) (sp : SalesPlus) :
    List.Forall₂ Narrowed ((solver.fn sp).1).sales sp.sales := by
  cases solver with
  | DoNothing => exact forall2_narrowed_refl _
  | TemporalLookbehind =>
    show List.Forall₂ Narrowed (temporal_lookbehind sp).1.sales sp.sales
    simp only [temporal_lookbehind, temporal_go_eq_comb_go]
    exact comb_go_narrows none sp.sales
  | SellerLookBehind =>
    show List.Forall₂ Narrowed (seller_lookbehind sp).1.sales sp.sales
    simp only [seller_lookbehind]
    exact seller_fold_narrows _ _ _

/-- C7 witness: the invariants of the seller pass at a concrete ledger. -/
theorem resolvers_narrow_witness :
    List.Forall₂ Narrowed
      ((AmbiguitySolver.SellerLookBehind.fn spC7).1).sales spC7.sales :=
  resolvers_narrow .SellerLookBehind spC7

/-- Helper: the driver reaches a zero pass within the available fuel. -/
theorem app_driver_term (fuel : Nat) (sp : SalesPlus)
    (h : sp.sales.length - resolvedCount sp.sales < fuel) :
    (app_driver fuel sp).isSome = true := by
  induction fuel generalizing sp with
  | zero => omega
  | succ n ih =>
    simp only [app_driver]
    by_cases hz : (comb_simple sp).2 = 0
    · simp [hz]
    · rw [if_neg hz]
      apply ih
      have hlen : (comb_simple sp).1.sales.length = sp.sales.length := by
        simpa [comb_simple] using (comb_go_narrows none sp.sales).length_eq
      have hcnt : resolvedCount (comb_simple sp).1.sales
          = resolvedCount sp.sales + (comb_simple sp).2 := by
        simp [comb_simple, comb_go_count]
      have hle : resolvedCount (comb_simple sp).1.sales
          ≤ (comb_simple sp).1.sales.length :=
        List.length_filter_le _ _
      omega

/-- C6 amended: a comb_simple pass resolves exactly as many
previously-unresolved transactions as it counts (so a zero pass resolves
none, though it may still shrink ambiguous candidate sets), and the
App::try_load loop, which stops at the first zero pass, terminates within
N+1 passes for N transactions. -/
theorem comb_accounting_and_driver_terminates (sp : SalesPlus) :
    resolvedCount (comb_simple sp).1.sales
      = resolvedCount sp.sales + (comb_simple sp).2
    ∧ (app_driver (sp.sales.length + 1) sp).isSome = true := by
  refine ⟨by simp [comb_simple, comb_go_count], ?_⟩
  apply app_driver_term
  omega

end D4
